import Mathlib

/-!
Verification development for the AI-Video-Finder repository.

The repository has three source files:
* `models/video-info.model.ts` — the `VideoVariant` / `VideoGroup` data model;
* `services/gemini.service.ts` — `GeminiService.findVideosInUrl`, a cached
  call to an external generative model followed by URL post-processing;
* `app.component.ts` — the UI component: validation, search lifecycle,
  filtering, sorting, category derivation and search history.

The external model call is embedded as a function parameter
`model : String → Option (List VideoGroup)` covering the call, the response
text and its JSON parse: `none` models a rejected call or unparsable output
(both reach the same `catch` in the source).  The platform URL constructor
(`new URL(ref, base)`) is modelled by `resolveURL`, with `none` modelling a
thrown `TypeError`.  JavaScript numbers are modelled by `Int` (the claims
under study never exercise non-integral or NaN arithmetic), locale-aware
string comparison and date parsing are model parameters, and JavaScript's
stable `Array.prototype.sort` is modelled by `List.mergeSort`.
-/

namespace VideoFinder

/-! ## Data model (`models/video-info.model.ts`) -/

/-- One playable file or stream (`VideoVariant` in the source).  Optional
fields are `Option`s; `sizeMb` and `popularity` are JS numbers, modelled as
`Int`. -/
structure VideoVariant where
  url : String
  format : String
  resolution : Option String := none
  sizeMb : Option Int := none
  isProtected : Option Bool := none
deriving DecidableEq

/-- One conceptual video, aggregating its quality variants (`VideoGroup`). -/
structure VideoGroup where
  title : String
  thumbnailUrl : Option String := none
  category : Option String := none
  uploadDate : Option String := none
  popularity : Option Int := none
  variants : List VideoVariant := []
deriving DecidableEq

/-! ## URL model

Modelled from the spec: the platform WHATWG URL parser (`new URL`), which the
repository uses but does not define.  The model is restricted to the
components the code observes — `protocol` (scheme), host, path — and to the
behaviours the code relies on: parse failure throws (here: `none`), special
schemes require a non-empty host, relative references resolve against a base.
Queries, fragments, ports, credentials, dot-segment normalization and
percent-encoding are not modelled; none of the claims exercise them. -/

structure URLRecord where
  scheme : String
  hasAuthority : Bool
  host : String
  path : String
deriving DecidableEq

def isSchemeStart (c : Char) : Bool := c.isAlpha

def isSchemeChar (c : Char) : Bool := c.isAlphanum || c == '+' || c == '-' || c == '.'

/-- Split a character list at the first colon, returning the parts before and
after it. -/
def splitColon : List Char → Option (List Char × List Char)
  | [] => none
  | c :: cs =>
    if c == ':' then some ([], cs)
    else
      match splitColon cs with
      | some (a, b) => some (c :: a, b)
      | none => none

/-- The WHATWG special schemes (their URLs must carry a non-empty host). -/
def isSpecialScheme (s : String) : Bool :=
  s == "http" || s == "https" || s == "ws" || s == "wss" || s == "ftp" || s == "file"

/-- Modelled from the spec: the scheme test of the platform URL parser.  When
`s` begins with a valid scheme followed by a colon, return the lowercased
scheme and the remainder. -/
def splitScheme (s : String) : Option (String × String) :=
  match splitColon s.toList with
  | none => none
  | some (before, after) =>
    match before with
    | [] => none
    | c :: cs =>
      if isSchemeStart c && cs.all isSchemeChar then
        some (String.mk ((c :: cs).map Char.toLower), String.mk after)
      else none

/-- Modelled from the spec: a simplified WHATWG absolute-URL parser.  `none`
models a thrown `TypeError`: no scheme, or a special scheme with a missing or
empty host. -/
def parseURL (s : String) : Option URLRecord :=
  match splitScheme s with
  | none => none
  | some (scheme, rest) =>
    match rest.toList with
    | '/' :: '/' :: afterAuth =>
      let host := String.mk (afterAuth.takeWhile (fun c => !(c == '/')))
      let pathChars := afterAuth.dropWhile (fun c => !(c == '/'))
      if isSpecialScheme scheme && host == "" then none
      else some ⟨scheme, true, host, if pathChars.isEmpty then "/" else String.mk pathChars⟩
    | _ =>
      if isSpecialScheme scheme then none
      else some ⟨scheme, false, "", rest⟩

/-- Serialize a parsed URL back to a string (the `href` accessor). -/
def serializeURL (u : URLRecord) : String :=
  if u.hasAuthority then u.scheme ++ "://" ++ u.host ++ u.path
  else u.scheme ++ ":" ++ u.path

/-- The directory part of a path: everything up to and including the last
slash, defaulting to the root path. -/
def dirOf (path : String) : String :=
  let r := path.toList.reverse.dropWhile (fun c => !(c == '/'))
  if r.isEmpty then "/" else String.mk r.reverse

/-- Modelled from the spec: `new URL(ref, base).href`.  `none` models a thrown
`TypeError`: the reference carries a scheme but fails to parse, or the
reference is relative and the base fails to parse or cannot be a base. -/
def resolveURL (ref base : String) : Option String :=
  match splitScheme ref with
  | some _ => (parseURL ref).map serializeURL
  | none =>
    match parseURL base with
    | none => none
    | some b =>
      if !b.hasAuthority then none
      else
        match ref.toList with
        | [] => some (serializeURL b)
        | '/' :: '/' :: _ => (parseURL (b.scheme ++ ":" ++ ref)).map serializeURL
        | '/' :: rest => some (serializeURL ⟨b.scheme, true, b.host, String.mk ('/' :: rest)⟩)
        | _ => some (serializeURL ⟨b.scheme, true, b.host, dirOf b.path ++ ref⟩)

/-! ## Query cache and normalizer (`services/gemini.service.ts`) -/

/-- The module-level `cache = new Map<string, VideoGroup[]>()`, modelled as an
association list; `cacheSet` conses so that `cacheGet` sees the newest binding
first, matching `Map.set` overwrite semantics. -/
abbrev Cache := List (String × List VideoGroup)

def cacheGet : Cache → String → Option (List VideoGroup)
  | [], _ => none
  | (k, v) :: rest, url => if k == url then some v else cacheGet rest url

def cacheSet (c : Cache) (url : String) (v : List VideoGroup) : Cache :=
  (url, v) :: c

/-- The fixed message of the error thrown by `findVideosInUrl` when the
external call, the JSON parse, or post-processing fails. -/
def analysisErrorMsg : String :=
  "Failed to analyze the URL. The AI model could not process the request."

/-- The per-variant URL resolution of `findVideosInUrl`: resolve the variant's
`url` against the submitted page URL; the `try`/`catch` keeps the original
variant when resolution fails. -/
def processVariant (base : String) (v : VideoVariant) : VideoVariant :=
  match resolveURL v.url base with
  | some absoluteUrl => { v with url := absoluteUrl }
  | none => v

/-- The per-group post-processing of `findVideosInUrl`: map `processVariant`
over the variants, then resolve `thumbnailUrl` when it is truthy (present and
non-empty).  The thumbnail resolution is not wrapped in a `try`/`catch` in the
source, so its failure aborts the whole group (`none`). -/
def processGroup (base : String) (g : VideoGroup) : Option VideoGroup :=
  let vs := g.variants.map (processVariant base)
  match g.thumbnailUrl with
  | none => some { g with variants := vs, thumbnailUrl := none }
  | some t =>
    if t == "" then some { g with variants := vs, thumbnailUrl := none }
    else
      match resolveURL t base with
      | some absoluteUrl => some { g with variants := vs, thumbnailUrl := some absoluteUrl }
      | none => none

/-- Result of one `findVideosInUrl` call: the returned value or thrown error,
the cache afterwards, and how many times the external model was invoked. -/
structure ServiceOutcome where
  result : Except String (List VideoGroup)
  cache : Cache
  modelCalls : Nat

/-- `GeminiService.findVideosInUrl`.  On a cache hit the cached value is
returned with no external call.  On a miss the external model is invoked
(`model url`, covering the call and the JSON parse of its response text);
failure, or a throw during post-processing, reaches the `catch` block which
throws the fixed analysis error without touching the cache; on success the
processed groups are cached under the original URL and returned. -/
def findVideosInUrl (model : String → Option (List VideoGroup)) (cache : Cache)
    (url : String) : ServiceOutcome :=
  match cacheGet cache url with
  | some cached => ⟨Except.ok cached, cache, 0⟩
  | none =>
    match model url with
    | none => ⟨Except.error analysisErrorMsg, cache, 1⟩
    | some videoGroups =>
      match videoGroups.mapM (processGroup url) with
      | none => ⟨Except.error analysisErrorMsg, cache, 1⟩
      | some processedGroups =>
        ⟨Except.ok processedGroups, cacheSet cache url processedGroups, 1⟩

/-! ## Presentation state (`app.component.ts`) -/

/-- The `SortByType` union of the component. -/
inductive SortByType where
  | popularity
  | date
  | title
deriving DecidableEq

/-- The component's signal state relevant to the claims (modal and clipboard
state omitted: no claim mentions them). -/
structure AppState where
  url : String
  videoGroups : List VideoGroup
  isLoading : Bool
  error : Option String
  hasSearched : Bool
  selectedCategory : String
  sortBy : SortByType
  urlHistory : List String
deriving DecidableEq

/-- The fixed validation message of `findVideos`. -/
def validationErrorMsg : String := "Please enter a valid URL (e.g., https://example.com)"

/-- The fallback message used when a caught error carries a falsy message. -/
def unknownErrorMsg : String := "An unknown error occurred."

/-- `AppComponent.isValidUrl`: `new URL(urlString)` must parse and its
protocol must be `http:` or `https:`. -/
def isValidUrl (urlString : String) : Bool :=
  match parseURL urlString with
  | some newUrl => newUrl.scheme ++ ":" == "http:" || newUrl.scheme ++ ":" == "https:"
  | none => false

/-- `AppComponent.updateHistory`: drop every occurrence of the URL, prepend
it, keep the first 10 entries.  (The `localStorage` write is best-effort and
does not affect the returned list.) -/
def updateHistory (url : String) (history : List String) : List String :=
  (url :: history.filter (fun h => !(h == url))).take 10

/-- The component state after the synchronous prefix of `findVideos` on a
valid URL, before the `await` of the service call. -/
def findVideosInFlight (st : AppState) : AppState :=
  { st with isLoading := true, error := none, videoGroups := [],
            hasSearched := true, selectedCategory := "all" }

/-- `AppComponent.findVideos`: validate, run the synchronous prefix, await the
service (its outcome is the `outcome` argument: `Except.error` covers both a
rejected promise and a synchronous throw, which the `try` block catches
alike), then the `catch` stores `e.message || fallback` and the `finally`
clears the loading flag. -/
def findVideos (st : AppState) (outcome : Except String (List VideoGroup)) : AppState :=
  if !(isValidUrl st.url) then { st with error := some validationErrorMsg }
  else
    let inFlight := findVideosInFlight st
    let afterCall :=
      match outcome with
      | Except.ok foundGroups =>
        { inFlight with videoGroups := foundGroups,
                        urlHistory := updateHistory st.url inFlight.urlHistory }
      | Except.error msg =>
        { inFlight with error := some (if msg == "" then unknownErrorMsg else msg) }
    { afterCall with isLoading := false }

/-! ## Category derivation and the filter/sort pipeline -/

/-- The truthy-category extraction of `allCategories`:
`videoGroups().map(v => v.category).filter(c => !!c)`. -/
def truthyCategories (groups : List VideoGroup) : List String :=
  (groups.map (fun v => v.category)).filterMap fun c =>
    match c with
    | some s => if s == "" then none else some s
    | none => none

/-- One step of `new Set(...)` insertion: JavaScript `Set` keeps first
occurrences in insertion order. -/
def jsSetInsert (acc : List String) (c : String) : List String :=
  if acc.contains c then acc else acc ++ [c]

/-- `Array.from(new Set(l))`: first-occurrence deduplication in insertion
order, as a fold over the list. -/
def jsSetOfList (l : List String) : List String :=
  l.foldl jsSetInsert []

/-- `AppComponent.allCategories`: the `"all"` sentinel followed by the
deduplicated truthy categories of the unfiltered result set.  It reads only
`videoGroups()`, so it is independent of the selected filter and sort by
construction. -/
def allCategories (groups : List VideoGroup) : List String :=
  "all" :: jsSetOfList (truthyCategories groups)

/-- The popularity key of the comparator: `b.popularity || 0`. -/
def popOf (g : VideoGroup) : Int := g.popularity.getD 0

/-- The date key of the comparator: `new Date(g.uploadDate || 0).getTime()`,
with `dateMs` the model of the platform date parser (a missing or empty
`uploadDate` is the epoch, i.e. `0`). -/
def dateOf (dateMs : String → Int) (g : VideoGroup) : Int :=
  match g.uploadDate with
  | none => 0
  | some s => if s == "" then 0 else dateMs s

/-- The comparator passed to `result.sort` in `filteredVideoGroups`;
`cmpTitle` models `a.title.localeCompare(b.title)`. -/
def compareGroups (sort : SortByType) (dateMs : String → Int)
    (cmpTitle : String → String → Int) (a b : VideoGroup) : Int :=
  match sort with
  | SortByType.date => dateOf dateMs b - dateOf dateMs a
  | SortByType.popularity => popOf b - popOf a
  | SortByType.title => cmpTitle a.title b.title

/-- `AppComponent.filteredVideoGroups`: copy the groups, filter by the
selected category unless it is the `"all"` sentinel (strict equality, so a
missing category never matches), then sort with the selected comparator.
JavaScript's stable sort is modelled by `List.mergeSort`, keeping `a` before
`b` whenever the comparator is non-positive. -/
def filteredVideoGroups (dateMs : String → Int) (cmpTitle : String → String → Int)
    (groups : List VideoGroup) (category : String) (sort : SortByType) : List VideoGroup :=
  let result :=
    if category != "all" then groups.filter (fun v => v.category == some category)
    else groups
  result.mergeSort fun a b => decide (compareGroups sort dateMs cmpTitle a b ≤ 0)

/-- Spec-side definition, for the refinement claim about `allCategories`.
Modelled from the spec's words: "the distinct non-empty `category` values
present across the unfiltered result set ... in first-seen order" — keep each
value's first occurrence, deleting the later duplicates. -/
def distinctFirstSeen : List String → List String
  | [] => []
  | c :: cs => c :: distinctFirstSeen (cs.filter (fun x => !(x == c)))
termination_by l => l.length
decreasing_by
  simp only [List.length_cons]
  exact Nat.lt_succ_of_le (List.length_filter_le _ _)

/-! ## Helper lemmas -/

/-- Appending a colon to a string is injective. -/
theorem append_colon_inj {a b : String} (h : a ++ ":" = b ++ ":") : a = b := by
  apply String.ext
  have hd : (a ++ ":").data = (b ++ ":").data := by rw [h]
  rw [String.data_append, String.data_append] at hd
  exact List.append_cancel_right hd

/-- Branch equation for `findVideosInUrl`: cache hit. -/
theorem findVideosInUrl_hit (model : String → Option (List VideoGroup))
    (cache : Cache) (url : String) (v : List VideoGroup)
    (h : cacheGet cache url = some v) :
    findVideosInUrl model cache url = ⟨Except.ok v, cache, 0⟩ := by
  unfold findVideosInUrl
  rw [h]

/-- Branch equation for `findVideosInUrl`: cache miss, external call fails. -/
theorem findVideosInUrl_miss_fail (model : String → Option (List VideoGroup))
    (cache : Cache) (url : String)
    (h : cacheGet cache url = none) (hm : model url = none) :
    findVideosInUrl model cache url = ⟨Except.error analysisErrorMsg, cache, 1⟩ := by
  unfold findVideosInUrl
  rw [h, hm]

/-- Branch equation for `findVideosInUrl`: cache miss, external call succeeds,
post-processing throws. -/
theorem findVideosInUrl_miss_badpost (model : String → Option (List VideoGroup))
    (cache : Cache) (url : String) (groups : List VideoGroup)
    (h : cacheGet cache url = none) (hm : model url = some groups)
    (hp : groups.mapM (processGroup url) = none) :
    findVideosInUrl model cache url = ⟨Except.error analysisErrorMsg, cache, 1⟩ := by
  unfold findVideosInUrl
  rw [h, hm]
  simp only [hp]

/-- Branch equation for `findVideosInUrl`: cache miss, success. -/
theorem findVideosInUrl_miss_ok (model : String → Option (List VideoGroup))
    (cache : Cache) (url : String) (groups pg : List VideoGroup)
    (h : cacheGet cache url = none) (hm : model url = some groups)
    (hp : groups.mapM (processGroup url) = some pg) :
    findVideosInUrl model cache url = ⟨Except.ok pg, cacheSet cache url pg, 1⟩ := by
  unfold findVideosInUrl
  rw [h, hm]
  simp only [hp]

/-! ## Claims -/

/-- Claim C3: for every search whose external call fails (rejects or throws,
including synchronously), the resulting state has `videoGroups` empty, `error`
set to a message, `isLoading` false, and `hasSearched` true; `isLoading` is
true for the whole in-flight duration (the state between the synchronous
prefix and the settled call) and false again afterward on both the success
and the failure path. -/
theorem c3_failure_path (st : AppState) (e : String) (gs : List VideoGroup)
    (hvalid : isValidUrl st.url = true) :
    (findVideosInFlight st).isLoading = true ∧
    (findVideos st (Except.error e)).videoGroups = [] ∧
    (findVideos st (Except.error e)).error.isSome = true ∧
    (findVideos st (Except.error e)).isLoading = false ∧
    (findVideos st (Except.error e)).hasSearched = true ∧
    (findVideos st (Except.ok gs)).isLoading = false := by
  refine ⟨rfl, ?_, ?_, ?_, ?_, ?_⟩ <;> simp [findVideos, findVideosInFlight, hvalid]

/-- Witness for C3 at a concrete state and error. -/
theorem c3_failure_path_witness :
    isValidUrl (AppState.mk "https://x.test" [] false none false "all"
        SortByType.popularity []).url = true ∧
    ((findVideosInFlight (AppState.mk "https://x.test" [] false none false "all"
        SortByType.popularity [])).isLoading = true ∧
      (findVideos (AppState.mk "https://x.test" [] false none false "all"
        SortByType.popularity []) (Except.error "boom")).videoGroups = [] ∧
      (findVideos (AppState.mk "https://x.test" [] false none false "all"
        SortByType.popularity []) (Except.error "boom")).error.isSome = true ∧
      (findVideos (AppState.mk "https://x.test" [] false none false "all"
        SortByType.popularity []) (Except.error "boom")).isLoading = false ∧
      (findVideos (AppState.mk "https://x.test" [] false none false "all"
        SortByType.popularity []) (Except.error "boom")).hasSearched = true ∧
      (findVideos (AppState.mk "https://x.test" [] false none false "all"
        SortByType.popularity []) (Except.ok [])).isLoading = false) :=
  ⟨by decide, c3_failure_path _ "boom" [] (by decide)⟩

/-- Claim C4: the search submission accepts an input if and only if it parses
as a well-formed URL with scheme http or https; the empty string, non-URL
text, and ftp URLs are rejected with the fixed validation message, and a
rejected submission changes no state other than the error message field. -/
theorem c4_validation (st : AppState) (outcome : Except String (List VideoGroup))
    (s : String) (hinvalid : isValidUrl st.url = false) :
    ((findVideos st outcome).error = some validationErrorMsg ∧
      (findVideos st outcome).url = st.url ∧
      (findVideos st outcome).videoGroups = st.videoGroups ∧
      (findVideos st outcome).isLoading = st.isLoading ∧
      (findVideos st outcome).hasSearched = st.hasSearched ∧
      (findVideos st outcome).selectedCategory = st.selectedCategory ∧
      (findVideos st outcome).sortBy = st.sortBy ∧
      (findVideos st outcome).urlHistory = st.urlHistory) ∧
    (isValidUrl s = true ↔
      ∃ u, parseURL s = some u ∧ (u.scheme = "http" ∨ u.scheme = "https")) ∧
    isValidUrl "" = false ∧
    isValidUrl "not a url" = false ∧
    isValidUrl "ftp://x.test" = false ∧
    isValidUrl "https://x.test" = true ∧
    isValidUrl "http://x.test" = true := by
  refine ⟨?_, ?_, by decide, by decide, by decide, by decide, by decide⟩
  · refine ⟨?_, ?_, ?_, ?_, ?_, ?_, ?_, ?_⟩ <;> simp [findVideos, hinvalid]
  · unfold isValidUrl
    cases hp : parseURL s with
    | none => simp
    | some u =>
      simp only [Option.some.injEq]
      constructor
      · intro h
        refine ⟨u, rfl, ?_⟩
        rcases Bool.or_eq_true_iff.mp h with h1 | h1
        · exact Or.inl (append_colon_inj (beq_iff_eq.mp h1))
        · exact Or.inr (append_colon_inj (beq_iff_eq.mp h1))
      · rintro ⟨u', hu', h1 | h1⟩
        · cases hu'; rw [h1]; decide
        · cases hu'; rw [h1]; decide

/-- Witness for C4 at a concrete rejected state. -/
theorem c4_validation_witness :
    isValidUrl (AppState.mk "not a url" [] false none false "all"
        SortByType.popularity []).url = false ∧
    (((findVideos (AppState.mk "not a url" [] false none false "all"
          SortByType.popularity []) (Except.ok [])).error = some validationErrorMsg ∧
      (findVideos (AppState.mk "not a url" [] false none false "all"
          SortByType.popularity []) (Except.ok [])).url =
        (AppState.mk "not a url" [] false none false "all"
          SortByType.popularity []).url ∧
      (findVideos (AppState.mk "not a url" [] false none false "all"
          SortByType.popularity []) (Except.ok [])).videoGroups =
        (AppState.mk "not a url" [] false none false "all"
          SortByType.popularity []).videoGroups ∧
      (findVideos (AppState.mk "not a url" [] false none false "all"
          SortByType.popularity []) (Except.ok [])).isLoading =
        (AppState.mk "not a url" [] false none false "all"
          SortByType.popularity []).isLoading ∧
      (findVideos (AppState.mk "not a url" [] false none false "all"
          SortByType.popularity []) (Except.ok [])).hasSearched =
        (AppState.mk "not a url" [] false none false "all"
          SortByType.popularity []).hasSearched ∧
      (findVideos (AppState.mk "not a url" [] false none false "all"
          SortByType.popularity []) (Except.ok [])).selectedCategory =
        (AppState.mk "not a url" [] false none false "all"
          SortByType.popularity []).selectedCategory ∧
      (findVideos (AppState.mk "not a url" [] false none false "all"
          SortByType.popularity []) (Except.ok [])).sortBy =
        (AppState.mk "not a url" [] false none false "all"
          SortByType.popularity []).sortBy ∧
      (findVideos (AppState.mk "not a url" [] false none false "all"
          SortByType.popularity []) (Except.ok [])).urlHistory =
        (AppState.mk "not a url" [] false none false "all"
          SortByType.popularity []).urlHistory) ∧
    (isValidUrl "https://x.test" = true ↔
      ∃ u, parseURL "https://x.test" = some u ∧
        (u.scheme = "http" ∨ u.scheme = "https")) ∧
    isValidUrl "" = false ∧
    isValidUrl "not a url" = false ∧
    isValidUrl "ftp://x.test" = false ∧
    isValidUrl "https://x.test" = true ∧
    isValidUrl "http://x.test" = true) :=
  ⟨by decide, c4_validation _ (Except.ok []) "https://x.test" (by decide)⟩

/-- Claim C6: the history update removes any existing occurrence of the
searched URL, prepends it, and truncates to at most 10 entries
most-recent-first; re-searching a URL reorders rather than duplicates, and an
11th distinct URL evicts the oldest entry. -/
theorem c6_history (url : String) (history : List String) :
    (updateHistory url history).length ≤ 10 ∧
    (updateHistory url history).head? = some url ∧
    url ∉ (updateHistory url history).tail ∧
    (∀ x, (updateHistory url history).count x ≤ (url :: history).count x) ∧
    updateHistory "https://a.test"
        (updateHistory "https://b.test" (updateHistory "https://a.test" [])) =
      ["https://a.test", "https://b.test"] ∧
    List.foldl (fun h u => updateHistory u h) []
        ["u1", "u2", "u3", "u4", "u5", "u6", "u7", "u8", "u9", "u10", "u11"] =
      ["u11", "u10", "u9", "u8", "u7", "u6", "u5", "u4", "u3", "u2"] := by
  refine ⟨?_, ?_, ?_, ?_, by decide, by decide⟩
  · simp [updateHistory, List.length_take]
  · simp [updateHistory, List.take_succ_cons]
  · intro hmem
    simp only [updateHistory, List.take_succ_cons, List.tail_cons] at hmem
    have hmem' := (List.take_sublist _ _).subset hmem
    have := List.of_mem_filter hmem'
    simp at this
  · intro x
    have h1 : (updateHistory url history).count x ≤
        (url :: history.filter (fun h => !(h == url))).count x :=
      (List.take_sublist _ _).count_le x
    have h2 : (url :: history.filter (fun h => !(h == url))).count x ≤
        (url :: history).count x := by
      have hsub : (history.filter (fun h => !(h == url))).Sublist history :=
        List.filter_sublist history
      exact (hsub.cons₂ url).count_le x
    exact le_trans h1 h2

/-- Claim C1 counterexample: the claim says a failed resolution of a group's
`thumbnailUrl` keeps the original string, returns the rest of the group, and
surfaces no error.  In the source the thumbnail resolution is outside the
per-variant `try`/`catch`, so at this concrete input — a group whose
`thumbnailUrl` is the unresolvable `"http://"` while its variant resolves
fine — the whole call throws the analysis error instead. -/
theorem c1_counterexample :
    resolveURL "http://" "https://site.test/page" = none ∧
    resolveURL "/v.mp4" "https://site.test/page" = some "https://site.test/v.mp4" ∧
    (findVideosInUrl
        (fun _ => some [{ title := "v", thumbnailUrl := some "http://",
                          variants := [{ url := "/v.mp4", format := "mp4" }] }])
        [] "https://site.test/page").result = Except.error analysisErrorMsg :=
  ⟨rfl, rfl, rfl⟩

/-- Claim C1 (amended): when resolving a variant's `url` fails, the original
unresolved string is kept for that variant and the group is still returned
(a group whose thumbnail step succeeds is always returned, with every variant
processed and failed ones unchanged); but when resolving a group's
`thumbnailUrl` fails, the failure is not caught per-field: the whole
`findVideosInUrl` call fails with the analysis error. -/
theorem c1_amended (base t : String) (v : VideoVariant) (g : VideoGroup)
    (model : String → Option (List VideoGroup)) (cache : Cache)
    (hv : resolveURL v.url base = none)
    (hmiss : cacheGet cache base = none)
    (hmodel : model base = some [g])
    (ht : g.thumbnailUrl = some t) (ht0 : ¬ t = "") (hr : resolveURL t base = none) :
    processVariant base v = v ∧
    (∀ g0 : VideoGroup, g0.thumbnailUrl = none →
      processGroup base g0 =
        some { g0 with variants := g0.variants.map (processVariant base),
                       thumbnailUrl := none }) ∧
    (findVideosInUrl model cache base).result = Except.error analysisErrorMsg := by
  refine ⟨?_, ?_, ?_⟩
  · simp [processVariant, hv]
  · intro g0 h0
    simp [processGroup, h0]
  · have hg : processGroup base g = none := by
      simp [processGroup, ht, ht0, hr]
    have hmapm : ([g]).mapM (processGroup base) = none := by
      rw [List.mapM_cons, hg]
      rfl
    rw [findVideosInUrl_miss_badpost model cache base [g] hmiss hmodel hmapm]

/-- Witness for the amended C1 at a concrete variant, group and model. -/
theorem c1_amended_witness :
    resolveURL "http://" "https://site.test/page" = none ∧
    cacheGet [] "https://site.test/page" = none ∧
    (fun _ : String => some [VideoGroup.mk "v" (some "http://") none none none
        [VideoVariant.mk "/v.mp4" "mp4" none none none]]) "https://site.test/page" =
      some [VideoGroup.mk "v" (some "http://") none none none
        [VideoVariant.mk "/v.mp4" "mp4" none none none]] ∧
    (VideoGroup.mk "v" (some "http://") none none none
        [VideoVariant.mk "/v.mp4" "mp4" none none none]).thumbnailUrl = some "http://" ∧
    ¬ ("http://" : String) = "" ∧
    (processVariant "https://site.test/page"
        (VideoVariant.mk "http://" "mp4" none none none) =
      VideoVariant.mk "http://" "mp4" none none none ∧
    (∀ g0 : VideoGroup, g0.thumbnailUrl = none →
      processGroup "https://site.test/page" g0 =
        some { g0 with
                variants := g0.variants.map (processVariant "https://site.test/page"),
                thumbnailUrl := none }) ∧
    (findVideosInUrl
        (fun _ : String => some [VideoGroup.mk "v" (some "http://") none none none
          [VideoVariant.mk "/v.mp4" "mp4" none none none]])
        [] "https://site.test/page").result = Except.error analysisErrorMsg) :=
  ⟨by decide, rfl, rfl, rfl, by decide,
    c1_amended "https://site.test/page" "http://"
      (VideoVariant.mk "http://" "mp4" none none none)
      (VideoGroup.mk "v" (some "http://") none none none
        [VideoVariant.mk "/v.mp4" "mp4" none none none])
      (fun _ => some [VideoGroup.mk "v" (some "http://") none none none
        [VideoVariant.mk "/v.mp4" "mp4" none none none]])
      [] (by decide) rfl rfl rfl (by decide) (by decide)⟩

/-- Claim C2 counterexample: the claim says the external model is invoked at
most once across two calls with any unchanged collaborator.  With a
collaborator that fails, nothing is cached by the first call, so the second
call invokes the model again: two invocations in total. -/
theorem c2_counterexample :
    ¬ ((findVideosInUrl (fun _ => none) [] "https://a.test").modelCalls +
        (findVideosInUrl (fun _ => none)
          (findVideosInUrl (fun _ => none) [] "https://a.test").cache
          "https://a.test").modelCalls ≤ 1) := by
  decide

/-- Claim C2 (amended): when the first call succeeds, calling
`findVideosInUrl` twice with an unchanged external collaborator returns
identical results both times, the first call invokes the model at most once,
and the second call is answered from the cache with no model invocation. -/
theorem c2_amended (model : String → Option (List VideoGroup)) (cache : Cache)
    (url : String) (gs : List VideoGroup)
    (h : (findVideosInUrl model cache url).result = Except.ok gs) :
    (findVideosInUrl model cache url).modelCalls ≤ 1 ∧
    (findVideosInUrl model (findVideosInUrl model cache url).cache url).result =
      Except.ok gs ∧
    (findVideosInUrl model (findVideosInUrl model cache url).cache url).modelCalls
      = 0 := by
  cases hc : cacheGet cache url with
  | some cached =>
    have h1 := findVideosInUrl_hit model cache url cached hc
    rw [h1] at h
    rw [h1]
    dsimp only
    rw [findVideosInUrl_hit model cache url cached hc]
    exact ⟨Nat.zero_le 1, h, rfl⟩
  | none =>
    cases hm : model url with
    | none =>
      rw [findVideosInUrl_miss_fail model cache url hc hm] at h
      simp at h
    | some groups =>
      cases hp : groups.mapM (processGroup url) with
      | none =>
        rw [findVideosInUrl_miss_badpost model cache url groups hc hm hp] at h
        simp at h
      | some pg =>
        have h1 := findVideosInUrl_miss_ok model cache url groups pg hc hm hp
        rw [h1] at h
        rw [h1]
        dsimp only
        have hget : cacheGet (cacheSet cache url pg) url = some pg := by
          simp [cacheGet, cacheSet]
        rw [findVideosInUrl_hit model (cacheSet cache url pg) url pg hget]
        exact ⟨Nat.le_refl 1, h, rfl⟩

/-- Witness for the amended C2 at a concrete succeeding collaborator. -/
theorem c2_amended_witness :
    (findVideosInUrl (fun _ => some []) [] "https://a.test").result =
      Except.ok [] ∧
    ((findVideosInUrl (fun _ => some []) [] "https://a.test").modelCalls ≤ 1 ∧
      (findVideosInUrl (fun _ => some [])
        (findVideosInUrl (fun _ => some []) [] "https://a.test").cache
        "https://a.test").result = Except.ok [] ∧
      (findVideosInUrl (fun _ => some [])
        (findVideosInUrl (fun _ => some []) [] "https://a.test").cache
        "https://a.test").modelCalls = 0) :=
  ⟨rfl, c2_amended (fun _ => some []) [] "https://a.test" [] rfl⟩

/-- Claim C8: a group's relative `thumbnailUrl` is resolved to an absolute
URL against the originally submitted URL as the base, and in particular
`"/thumb.jpg"` against `"https://site.test/page"` yields
`"https://site.test/thumb.jpg"`, end to end through `findVideosInUrl`. -/
theorem c8_thumbnail_resolution (base t a : String) (g : VideoGroup)
    (ht : g.thumbnailUrl = some t) (ht0 : ¬ t = "")
    (hr : resolveURL t base = some a) :
    processGroup base g =
      some { g with variants := g.variants.map (processVariant base),
                    thumbnailUrl := some a } ∧
    resolveURL "/thumb.jpg" "https://site.test/page" =
      some "https://site.test/thumb.jpg" ∧
    (findVideosInUrl
        (fun _ => some [VideoGroup.mk "v" (some "/thumb.jpg") none none none
          [VideoVariant.mk "/v.mp4" "mp4" none none none]])
        [] "https://site.test/page").result =
      Except.ok [VideoGroup.mk "v" (some "https://site.test/thumb.jpg") none none none
        [VideoVariant.mk "https://site.test/v.mp4" "mp4" none none none]] := by
  refine ⟨?_, by decide, rfl⟩
  simp [processGroup, ht, ht0, hr]

/-- Witness for C8 at the concrete thumbnail and base of the claim. -/
theorem c8_thumbnail_resolution_witness :
    (VideoGroup.mk "v" (some "/thumb.jpg") none none none []).thumbnailUrl =
      some "/thumb.jpg" ∧
    ¬ ("/thumb.jpg" : String) = "" ∧
    resolveURL "/thumb.jpg" "https://site.test/page" =
      some "https://site.test/thumb.jpg" ∧
    (processGroup "https://site.test/page"
        (VideoGroup.mk "v" (some "/thumb.jpg") none none none []) =
      some { VideoGroup.mk "v" (some "/thumb.jpg") none none none [] with
              variants := [].map (processVariant "https://site.test/page"),
              thumbnailUrl := some "https://site.test/thumb.jpg" } ∧
    resolveURL "/thumb.jpg" "https://site.test/page" =
      some "https://site.test/thumb.jpg" ∧
    (findVideosInUrl
        (fun _ => some [VideoGroup.mk "v" (some "/thumb.jpg") none none none
          [VideoVariant.mk "/v.mp4" "mp4" none none none]])
        [] "https://site.test/page").result =
      Except.ok [VideoGroup.mk "v" (some "https://site.test/thumb.jpg") none none none
        [VideoVariant.mk "https://site.test/v.mp4" "mp4" none none none]]) :=
  ⟨rfl, by decide, by decide,
    c8_thumbnail_resolution "https://site.test/page" "/thumb.jpg"
      "https://site.test/thumb.jpg"
      (VideoGroup.mk "v" (some "/thumb.jpg") none none none [])
      rfl (by decide) (by decide)⟩

/-- Claim C10: when `findVideosInUrl` fails — external call error, JSON parse
failure, or a throw during post-processing — the cache is left unchanged (a
failing call always means the URL was not a cache key), so a subsequent call
with the same URL invokes the external model again. -/
theorem c10_failure_not_cached (model : String → Option (List VideoGroup))
    (cache : Cache) (url e : String)
    (h : (findVideosInUrl model cache url).result = Except.error e) :
    (findVideosInUrl model cache url).cache = cache ∧
    cacheGet cache url = none ∧
    (findVideosInUrl model (findVideosInUrl model cache url).cache url).modelCalls
      = 1 := by
  cases hc : cacheGet cache url with
  | some cached =>
    rw [findVideosInUrl_hit model cache url cached hc] at h
    simp at h
  | none =>
    cases hm : model url with
    | none =>
      have h1 := findVideosInUrl_miss_fail model cache url hc hm
      rw [h1]
      dsimp only
      rw [findVideosInUrl_miss_fail model cache url hc hm]
      exact ⟨rfl, rfl, rfl⟩
    | some groups =>
      cases hp : groups.mapM (processGroup url) with
      | none =>
        have h1 := findVideosInUrl_miss_badpost model cache url groups hc hm hp
        rw [h1]
        dsimp only
        rw [findVideosInUrl_miss_badpost model cache url groups hc hm hp]
        exact ⟨rfl, rfl, rfl⟩
      | some pg =>
        rw [findVideosInUrl_miss_ok model cache url groups pg hc hm hp] at h
        simp at h

/-- Witness for C10 at a concrete failing collaborator. -/
theorem c10_failure_not_cached_witness :
    (findVideosInUrl (fun _ => none) [] "https://a.test").result =
      Except.error analysisErrorMsg ∧
    ((findVideosInUrl (fun _ => none) [] "https://a.test").cache = [] ∧
      cacheGet [] "https://a.test" = none ∧
      (findVideosInUrl (fun _ => none)
        (findVideosInUrl (fun _ => none) [] "https://a.test").cache
        "https://a.test").modelCalls = 1) :=
  ⟨rfl, c10_failure_not_cached (fun _ => none) [] "https://a.test"
    analysisErrorMsg rfl⟩

/-- Membership in the spec-side first-seen deduplication. -/
theorem mem_distinctFirstSeen (l : List String) (x : String) :
    x ∈ distinctFirstSeen l ↔ x ∈ l := by
  induction l using distinctFirstSeen.induct with
  | case1 => simp [distinctFirstSeen]
  | case2 c cs ih =>
    rw [distinctFirstSeen]
    by_cases hx : x = c
    · subst hx; simp
    · simp only [List.mem_cons, ih, List.mem_filter]
      constructor
      · rintro (h | ⟨h, _⟩)
        · exact Or.inl h
        · exact Or.inr h
      · rintro (h | h)
        · exact Or.inl h
        · refine Or.inr ⟨h, ?_⟩
          simp [hx]

/-- The spec-side first-seen deduplication has no duplicates. -/
theorem nodup_distinctFirstSeen (l : List String) : (distinctFirstSeen l).Nodup := by
  induction l using distinctFirstSeen.induct with
  | case1 => simp [distinctFirstSeen]
  | case2 c cs ih =>
    rw [distinctFirstSeen]
    refine List.nodup_cons.mpr ⟨?_, ih⟩
    intro hmem
    rw [mem_distinctFirstSeen] at hmem
    have := List.of_mem_filter hmem
    simp at this

/-- The `Set`-insertion fold, generalized over the accumulator: it extends the
accumulator with the first-seen deduplication of the unseen elements. -/
theorem foldl_jsSetInsert (l : List String) :
    ∀ acc, l.foldl jsSetInsert acc =
      acc ++ distinctFirstSeen (l.filter (fun x => !(acc.contains x))) := by
  induction l with
  | nil => intro acc; simp [distinctFirstSeen]
  | cons c cs ih =>
    intro acc
    rw [List.foldl_cons, List.filter_cons]
    by_cases hc : acc.contains c = true
    · have h1 : jsSetInsert acc c = acc := by
        unfold jsSetInsert
        rw [hc]
        simp
      rw [h1, ih acc, hc]
      simp only [Bool.not_true, Bool.false_eq_true, if_false]
    · have hcf : acc.contains c = false := Bool.eq_false_iff.mpr hc
      have h1 : jsSetInsert acc c = acc ++ [c] := by
        unfold jsSetInsert
        rw [hcf]
        simp
      rw [h1, ih (acc ++ [c]), hcf]
      simp only [Bool.not_false, if_true]
      rw [distinctFirstSeen, List.append_assoc, List.singleton_append,
        List.filter_filter]
      have hfeq : (cs.filter fun x => !((acc ++ [c]).contains x)) =
          (cs.filter fun a => (!(a == c)) && (!(acc.contains a))) := by
        apply List.filter_congr
        intro x hx
        have hl : ((acc ++ [c]).contains x) = decide (x ∈ acc ++ [c]) :=
          List.elem_eq_mem x (acc ++ [c])
        have ha : (acc.contains x) = decide (x ∈ acc) := List.elem_eq_mem x acc
        rw [hl, ha]
        by_cases hxc : x = c
        · subst hxc
          simp
        · by_cases hm : x ∈ acc
          · simp [hm, hxc]
          · simp [hm, hxc]
      rw [hfeq]

/-- The source's `Array.from(new Set(l))` equals the spec's first-seen
deduplication. -/
theorem jsSetOfList_eq_distinctFirstSeen (l : List String) :
    jsSetOfList l = distinctFirstSeen l := by
  have h := foldl_jsSetInsert l []
  simpa [jsSetOfList] using h

/-- Membership in the truthy-category extraction: exactly the non-empty
category values present in the result set. -/
theorem mem_truthyCategories (groups : List VideoGroup) (c : String) :
    c ∈ truthyCategories groups ↔ (∃ g ∈ groups, g.category = some c) ∧ ¬ c = "" := by
  unfold truthyCategories
  rw [List.mem_filterMap]
  constructor
  · rintro ⟨o, ho, hfo⟩
    rw [List.mem_map] at ho
    obtain ⟨g, hg, rfl⟩ := ho
    cases hgc : g.category with
    | none => rw [hgc] at hfo; simp at hfo
    | some s =>
      rw [hgc] at hfo
      by_cases hs : (s == "") = true
      · simp [hs] at hfo
      · have hs' : (s == "") = false := Bool.eq_false_iff.mpr hs
        simp only [hs', Bool.false_eq_true, if_false] at hfo
        obtain rfl : s = c := by simpa using hfo
        refine ⟨⟨g, hg, hgc⟩, ?_⟩
        simpa using hs
  · rintro ⟨⟨g, hg, hgc⟩, hne⟩
    refine ⟨g.category, ?_, ?_⟩
    · rw [List.mem_map]
      exact ⟨g, hg, rfl⟩
    · rw [hgc]
      have : (c == "") = false := by
        refine Bool.eq_false_iff.mpr ?_
        simpa using hne
      simp [this]

/-- Claim C9: the derived category list is the `"all"` sentinel first,
followed by the distinct non-empty category values present across the
unfiltered result set in first-seen order (`distinctFirstSeen` is the
spec-side definition of that order); `allCategories` reads only the result
set, so it is independent of the selected filter and sort. -/
theorem c9_category_list (groups : List VideoGroup) :
    allCategories groups = "all" :: distinctFirstSeen (truthyCategories groups) ∧
    (allCategories groups).head? = some "all" ∧
    (∀ c, c ∈ (allCategories groups).tail ↔
      ((∃ g ∈ groups, g.category = some c) ∧ ¬ c = "")) ∧
    (allCategories groups).tail.Nodup := by
  have h1 : allCategories groups =
      "all" :: distinctFirstSeen (truthyCategories groups) := by
    unfold allCategories
    rw [jsSetOfList_eq_distinctFirstSeen]
  refine ⟨h1, by rw [h1]; rfl, ?_, ?_⟩
  · intro c
    rw [h1]
    simp only [List.tail_cons]
    rw [mem_distinctFirstSeen]
    exact mem_truthyCategories groups c
  · rw [h1]
    simp only [List.tail_cons]
    exact nodup_distinctFirstSeen _

/-- Claim C5: filtering with the `"all"` sentinel keeps every group (the
result is a permutation of the input), filtering with a specific category
keeps exactly the groups whose `category` equals that value (so groups
without a category are excluded), and the `"all"`-filtered result is never
shorter than a specific-category filter's result. -/
theorem c5_category_filter (dateMs : String → Int) (cmpTitle : String → String → Int)
    (groups : List VideoGroup) (category : String) (sort : SortByType)
    (hc : ¬ category = "all") :
    (filteredVideoGroups dateMs cmpTitle groups "all" sort).Perm groups ∧
    (∀ g, g ∈ filteredVideoGroups dateMs cmpTitle groups category sort ↔
      g ∈ groups ∧ g.category = some category) ∧
    (filteredVideoGroups dateMs cmpTitle groups category sort).length ≤
      (filteredVideoGroups dateMs cmpTitle groups "all" sort).length := by
  have hbne : (category != "all") = true := bne_iff_ne.mpr hc
  have hall : filteredVideoGroups dateMs cmpTitle groups "all" sort =
      groups.mergeSort
        (fun a b => decide (compareGroups sort dateMs cmpTitle a b ≤ 0)) := by
    unfold filteredVideoGroups
    simp
  have hcat : filteredVideoGroups dateMs cmpTitle groups category sort =
      (groups.filter (fun v => v.category == some category)).mergeSort
        (fun a b => decide (compareGroups sort dateMs cmpTitle a b ≤ 0)) := by
    unfold filteredVideoGroups
    rw [if_pos hbne]
  refine ⟨?_, ?_, ?_⟩
  · rw [hall]
    exact List.mergeSort_perm groups _
  · intro g
    rw [hcat, List.mem_mergeSort, List.mem_filter]
    constructor
    · rintro ⟨h1, h2⟩
      exact ⟨h1, beq_iff_eq.mp h2⟩
    · rintro ⟨h1, h2⟩
      exact ⟨h1, beq_iff_eq.mpr h2⟩
  · rw [hall, hcat, List.length_mergeSort, List.length_mergeSort]
    exact List.length_filter_le _ groups

/-- Witness for C5 at a concrete result set and category. -/
theorem c5_category_filter_witness :
    ¬ ("Music" : String) = "all" ∧
    ((filteredVideoGroups (fun _ => 0) (fun _ _ => 0)
        [VideoGroup.mk "a" none (some "Music") none none [],
         VideoGroup.mk "b" none none none none []] "all"
        SortByType.popularity).Perm
      [VideoGroup.mk "a" none (some "Music") none none [],
       VideoGroup.mk "b" none none none none []] ∧
    (∀ g, g ∈ filteredVideoGroups (fun _ => 0) (fun _ _ => 0)
        [VideoGroup.mk "a" none (some "Music") none none [],
         VideoGroup.mk "b" none none none none []] "Music"
        SortByType.popularity ↔
      g ∈ [VideoGroup.mk "a" none (some "Music") none none [],
           VideoGroup.mk "b" none none none none []] ∧
      g.category = some "Music") ∧
    (filteredVideoGroups (fun _ => 0) (fun _ _ => 0)
        [VideoGroup.mk "a" none (some "Music") none none [],
         VideoGroup.mk "b" none none none none []] "Music"
        SortByType.popularity).length ≤
      (filteredVideoGroups (fun _ => 0) (fun _ _ => 0)
        [VideoGroup.mk "a" none (some "Music") none none [],
         VideoGroup.mk "b" none none none none []] "all"
        SortByType.popularity).length) :=
  ⟨by decide, c5_category_filter (fun _ => 0) (fun _ _ => 0)
    [VideoGroup.mk "a" none (some "Music") none none [],
     VideoGroup.mk "b" none none none none []] "Music"
    SortByType.popularity (by decide)⟩

/-- Claim C7: sorting by popularity orders the displayed groups by
popularity descending, a missing popularity field being treated as `0`; in
particular a group with popularity 90 is placed before one with popularity
40, which is placed before one with no popularity field. -/
theorem c7_popularity_descending (dateMs : String → Int)
    (cmpTitle : String → String → Int) (groups : List VideoGroup)
    (category : String) :
    (filteredVideoGroups dateMs cmpTitle groups category
        SortByType.popularity).Pairwise (fun a b => popOf b ≤ popOf a) ∧
    filteredVideoGroups (fun _ => 0) (fun _ _ => 0)
        [VideoGroup.mk "b" none none none (some 40) [],
         VideoGroup.mk "c" none none none none [],
         VideoGroup.mk "a" none none none (some 90) []] "all"
        SortByType.popularity =
      [VideoGroup.mk "a" none none none (some 90) [],
       VideoGroup.mk "b" none none none (some 40) [],
       VideoGroup.mk "c" none none none none []] := by
  constructor
  · unfold filteredVideoGroups
    have hs := @List.sorted_mergeSort VideoGroup
      (fun a b =>
        decide (compareGroups SortByType.popularity dateMs cmpTitle a b ≤ 0))
      (fun a b c hab hbc => by
        simp only [compareGroups, decide_eq_true_eq] at hab hbc ⊢
        omega)
      (fun a b => by
        simp only [compareGroups, Bool.or_eq_true, decide_eq_true_eq]
        omega)
      (if category != "all" then
        groups.filter (fun v => v.category == some category)
      else groups)
    refine hs.imp ?_
    intro a b hab
    simp only [compareGroups, decide_eq_true_eq] at hab
    omega
  · simp [filteredVideoGroups, List.mergeSort, List.merge, compareGroups, popOf]

end VideoFinder
